import Mathlib

/-
Verification of the path-resolution and monotonic-versioning core of the
GGIR QC tool (src/app.py) against its natural-language specification.

The Python source is shallowly embedded over `List Char` (filenames and
payload bytes are character lists; Python ints are `Int`/`Nat`).  The
external object store (Google Drive) is modelled as an explicit `Store`
value; a listing call returns every non-trashed entry matching the query
(pagination is abstracted away).  Transport failures are modelled by
`Except Unit` responses fed to the `...R`/`...E` variants of each reading
function; the plain variants are the happy path, tied to the `...R`/`...E`
forms by definitional lemmas.

The write path is embedded as it actually behaves.  `upload_versioned_csv`
(app.py lines 274-324) runs the version scan and builds the versioned
filename, but its create step passes an in-memory `io.BytesIO` object to
`MediaFileUpload` (line 309), whose first parameter is a filename that the
constructor opens; the call therefore raises `TypeError` inside the `try`
before any create request is issued, the function's single `except`
(lines 322-324) returns `None`, and no store write ever happens.
-/

namespace GgirQC

/-- Filenames, payloads and query patterns are character lists
(Python `str` / `bytes`). -/
abbrev Chars := List Char

/-! ## Python primitives used by the source

`app.py` relies on `str.replace`, `int(...)`, `str.rsplit('.', 1)` and
f-string formatting of integers.  Each is embedded below, faithful to
CPython semantics on ASCII strings. -/

/-- Fuelled worker for `replaceAll`.  One unit of fuel is spent per
character consumed, so `s.length` fuel always suffices. -/
def replaceAllAux : Nat → Chars → Chars → Chars
  | 0, _, s => s
  | fuel + 1, p, s =>
    match s with
    | [] => []
    | c :: rest =>
      if p.isPrefixOf (c :: rest) then replaceAllAux fuel p ((c :: rest).drop p.length)
      else c :: replaceAllAux fuel p rest

/-- Python `s.replace(p, '')`: remove every non-overlapping occurrence of
`p` from `s`, scanning left to right.  (`str.replace` with an empty
pattern returns the string unchanged when the replacement is empty.) -/
def replaceAll (p s : Chars) : Chars :=
  if p = [] then s else replaceAllAux s.length p s

/-- Digit-sequence worker for Python `int(...)`: digits with single
underscores allowed only between digits, accumulating the decimal value. -/
def pyDigitsAux : Nat → Chars → Option Nat
  | acc, [] => some acc
  | acc, [c] =>
    if c = '_' then none
    else if c.isDigit then some (acc * 10 + (c.toNat - 48))
    else none
  | acc, c :: d :: rest =>
    if c = '_' then
      if d.isDigit then pyDigitsAux (acc * 10 + (d.toNat - 48)) rest else none
    else if c.isDigit then pyDigitsAux (acc * 10 + (c.toNat - 48)) (d :: rest)
    else none

/-- Python digit-run parser: nonempty, starts with a digit. -/
def pyDigits : Chars → Option Nat
  | [] => none
  | c :: rest => if c.isDigit then pyDigitsAux (c.toNat - 48) rest else none

/-- The optional-sign layer of Python `int(...)`, applied after
whitespace stripping. -/
def pySigned : Chars → Option Int
  | [] => none
  | c :: rest =>
    if c = '-' then (pyDigits rest).map (fun m => -(m : Int))
    else if c = '+' then (pyDigits rest).map (fun m => (m : Int))
    else (pyDigits (c :: rest)).map (fun m => (m : Int))

/-- Python `int(s)` on an ASCII string: strip surrounding whitespace, an
optional single sign, then an underscore-separated digit run.  `none`
models `ValueError`. -/
def pyInt? (s : Chars) : Option Int :=
  pySigned (((s.dropWhile Char.isWhitespace).reverse.dropWhile Char.isWhitespace).reverse)

/-- Fuelled worker producing the decimal digits of `n` (most significant
first) in front of `acc`. -/
def natToCharsAux : Nat → Nat → Chars → Chars
  | 0, _, acc => acc
  | fuel + 1, n, acc =>
    if n = 0 then acc
    else natToCharsAux fuel (n / 10) (Nat.digitChar (n % 10) :: acc)

/-- Python `str(n)` for a natural number: decimal digits. -/
def natToChars (n : Nat) : Chars :=
  if n = 0 then ['0'] else natToCharsAux n n []

/-- Python `str(n)` for an integer (the version number interpolated by the
f-string in `upload_versioned_csv`). -/
def intToChars : Int → Chars
  | .ofNat n => natToChars n
  | .negSucc m => '-' :: natToChars (m + 1)

/-- Python `base.rsplit('.', 1)` guarded by `'.' in base` (lines 235-239
and 292-296 of app.py): split a base filename into `(stem, ext)` on the
last dot; no dot gives an empty extension. -/
def splitBase (b : Chars) : Chars × Chars :=
  if '.' ∈ b then
    ((((b.reverse.dropWhile (fun c => c ≠ '.')).drop 1).reverse),
      ((b.reverse.takeWhile (fun c => c ≠ '.')).reverse))
  else (b, [])

/-! ## The object store model -/

/-- A non-container artifact held by the store. -/
structure DFile where
  id : Nat
  name : Chars
  parent : Nat
  trashed : Bool
  content : Chars
deriving DecidableEq, Repr

/-- A container (folder) held by the store. -/
structure DFolder where
  id : Nat
  name : Chars
  parent : Nat
  trashed : Bool
deriving DecidableEq, Repr

/-- The externally hosted hierarchical object store. -/
structure Store where
  folders : List DFolder
  files : List DFile
deriving DecidableEq, Repr

/-- The listing produced by the Drive query
`'folder' in parents and trashed=false and name contains 'pat'`
issued by `get_next_version_number` (app.py line 243). -/
def listQuery (st : Store) (folder : Nat) (pat : Chars) : List DFile :=
  st.files.filter (fun f => decide (f.parent = folder ∧ f.trashed = false ∧ pat <:+: f.name))

/-- The listing produced by the folder query of `find_folder_by_path`
(app.py line 140): exact name, given parent, folder type, not trashed. -/
def folderQuery (st : Store) (parent : Nat) (nm : Chars) : List DFolder :=
  st.folders.filter (fun d => decide (d.name = nm ∧ d.parent = parent ∧ d.trashed = false))

/-- The listing produced by the file query of `find_file_in_folder`
(app.py line 175): exact name, given parent, not trashed. -/
def fileQuery (st : Store) (folder : Nat) (nm : Chars) : List DFile :=
  st.files.filter (fun f => decide (f.name = nm ∧ f.parent = folder ∧ f.trashed = false))

/-! ## get_next_version_number (app.py lines 222-271) -/

/-- The stripping step of the version-parsing loop (app.py lines 259-262):
`filename.replace(name_part + '_v', '')` and, when the extension is
nonempty, a further `.replace('.' + ext, '')`.  Note `str.replace` removes
every occurrence, not just a prefix or suffix. -/
def stripVersion (nm ext cand : Chars) : Chars :=
  if ext = [] then replaceAll (nm ++ ['_', 'v']) cand
  else replaceAll ('.' :: ext) (replaceAll (nm ++ ['_', 'v']) cand)

/-- Version parsed from a candidate sibling name; `none` models the
`ValueError` branch that silently skips the name (app.py lines 263-266). -/
def versionOf (nm ext cand : Chars) : Option Int :=
  pyInt? (stripVersion nm ext cand)

/-- One iteration of the `max_version` loop (app.py lines 255-266):
parse the candidate, keep the running maximum, skip parse failures. -/
def stepMax (nm ext : Chars) (acc : Int) (cand : Chars) : Int :=
  match versionOf nm ext cand with
  | some v => max acc v
  | none => acc

/-- The `max_version` fold of app.py lines 254-264, starting from 0. -/
def maxVersion (nm ext : Chars) (names : List Chars) : Int :=
  names.foldl (stepMax nm ext) 0

/-- The pure core of `get_next_version_number` applied to the names the
store listed: split the base filename, fold the parsed versions, add 1. -/
def get_next_version_core (base : Chars) (names : List Chars) : Int :=
  maxVersion (splitBase base).1 (splitBase base).2 names + 1

/-- `get_next_version_number` with the store response made explicit: the
`except` branch of app.py lines 269-271 catches any transport error and
returns the default version number 1. -/
def get_next_version_numberE (resp : Except Unit (List Chars)) (base : Chars) : Int :=
  match resp with
  | .error _ => 1
  | .ok names => get_next_version_core base names

/-- `get_next_version_number(service, folder_id, base_filename)` on the
happy path: query the folder for names containing `stem ++ "_v"` and fold. -/
def get_next_version_number (st : Store) (folder : Nat) (base : Chars) : Int :=
  get_next_version_core base
    ((listQuery st folder ((splitBase base).1 ++ ['_', 'v'])).map (fun f => f.name))

/-! ## upload_versioned_csv (app.py lines 274-324) -/

/-- The versioned filename construction of app.py lines 292-296. -/
def mkVersionedName (base : Chars) (n : Int) : Chars :=
  if '.' ∈ base then
    (splitBase base).1 ++ ['_', 'v'] ++ intToChars n ++ '.' :: (splitBase base).2
  else base ++ ['_', 'v'] ++ intToChars n

/-- `upload_versioned_csv(service, folder_id, base_filename, dataframe)`
(app.py lines 274-324).  The function runs the version scan (line 289) and
builds the versioned filename (lines 292-296); then line 309 constructs
`MediaFileUpload(io.BytesIO(...))`.  `MediaFileUpload`'s first parameter
is a FILENAME whose constructor opens it, so handing it an in-memory
`io.BytesIO` raises `TypeError` inside the `try`, before any create
request reaches the store (the in-memory media class would have been
`MediaIoBaseUpload`, which app.py does not import).  The single `except`
at lines 322-324 displays the error and returns `None`.  Hence every
invocation returns `None` and leaves the store exactly as it was: the
source has no success path.  `payload` is the serialised CSV text of the
dataframe (lines 298-301); it is discarded with the failed upload.
Because the create step raises before any store call, any interleaving of
several writers is the composition of their (read-only) invocations. -/
def upload_versioned_csv (st : Store) (folder : Nat) (base _payload : Chars) :
    Store × Option DFile :=
  let _n := get_next_version_number st folder base
  let _newName := mkVersionedName base _n
  (st, none)

/-! ## find_folder_by_path (app.py lines 125-160) -/

/-- `find_folder_by_path` with the per-segment store responses made
explicit: a transport error at any segment is caught by the per-iteration
`except` and converted to the `None` result (app.py lines 156-158); zero
matches also give `None` (line 152); otherwise the walk continues from the
first matching folder (line 155). -/
def find_folder_by_pathR (resp : Nat → Chars → Except Unit (List DFolder)) (root : Nat) :
    List Chars → Option Nat
  | [] => some root
  | seg :: rest =>
    match resp root seg with
    | .error _ => none
    | .ok ds =>
      match ds.head? with
      | none => none
      | some d => find_folder_by_pathR resp d.id rest

/-- `find_folder_by_path(service, root_folder_id, path_components)` on the
happy path (every store call answers). -/
def find_folder_by_path (st : Store) (root : Nat) : List Chars → Option Nat
  | [] => some root
  | seg :: rest =>
    match (folderQuery st root seg).head? with
    | none => none
    | some d => find_folder_by_path st d.id rest

/-- `find_folder_by_path` instrumented with the list of store lookups it
issues: each processed segment contributes the pair
(parent id queried, segment name). -/
def resolveTrace (st : Store) (root : Nat) : List Chars → Option Nat × List (Nat × Chars)
  | [] => (some root, [])
  | seg :: rest =>
    match (folderQuery st root seg).head? with
    | none => (none, [(root, seg)])
    | some d =>
      let t := resolveTrace st d.id rest
      (t.1, (root, seg) :: t.2)

/-! ## find_file_in_folder (app.py lines 163-191) and the download -/

/-- `find_file_in_folder` with the store response made explicit: a
transport error is caught and converted to `None` (app.py lines 189-191);
otherwise the first listed file, if any, is returned (lines 184-188). -/
def find_file_in_folderR (resp : Except Unit (List DFile)) : Option DFile :=
  match resp with
  | .error _ => none
  | .ok fs => fs.head?

/-- `find_file_in_folder(service, folder_id, filename)` on the happy
path. -/
def find_file_in_folder (st : Store) (folder : Nat) (nm : Chars) : Option DFile :=
  (fileQuery st folder nm).head?

/-- The media download inside `download_csv_content` (app.py lines
206-214): the bytes of the artifact with the given id, before the pandas
CSV parse (which is an external collaborator, out of the core's scope). -/
def download_bytes (st : Store) (fileId : Nat) : Option Chars :=
  (st.files.find? (fun g => g.id == fileId)).map (fun g => g.content)

/-! ## A definition following the claim's words (refinement spec)

C3 describes version parsing as stripping the `stem_v` prefix and the
`.ext` suffix and parsing the remainder as a non-negative integer.  The
definitions below follow those words, NOT the source, so that the claim
can be compared with what the source actually computes. -/

/-- Plain non-negative decimal integer parse (the claim's words). -/
def parseNonNegInt (l : Chars) : Option Nat :=
  if l ≠ [] ∧ l.all Char.isDigit then some (l.foldl (fun v c => v * 10 + (c.toNat - 48)) 0)
  else none

/-- Follows the claim's words: strip the `stem_v` PREFIX and the `.ext`
SUFFIX (when `ext` is nonempty), then parse the remainder; any failure
skips the name. -/
def claimVersionOf (nm ext cand : Chars) : Option Nat :=
  if (nm ++ ['_', 'v']).isPrefixOf cand then
    let mid := cand.drop (nm ++ ['_', 'v']).length
    if ext = [] then parseNonNegInt mid
    else
      if ('.' :: ext).isSuffixOf mid then
        parseNonNegInt (mid.take (mid.length - ('.' :: ext).length))
      else none
  else none

/-- Follows the claim's words: `max(parsed values) + 1` over the sibling
names, `1` when no sibling name parses. -/
def claimNextVersion (base : Chars) (siblings : List Chars) : Nat :=
  ((siblings.filterMap (claimVersionOf (splitBase base).1 (splitBase base).2)).foldl max 0) + 1

/-! ## A step-chain predicate for path resolution

`Resolves st root path cid` says that, starting at `root`, every segment
of `path` matches an existing child container (taking the store's first
match at each step, as the source does) and the walk ends at `cid`. -/

/-- The chain of first-match container lookups from `root` along `path`
ends at the container id `cid`. -/
inductive Resolves (st : Store) : Nat → List Chars → Nat → Prop
  | nil (r : Nat) : Resolves st r [] r
  | cons (r : Nat) (seg : Chars) (rest : List Chars) (d : DFolder) (cid : Nat) :
      (folderQuery st r seg).head? = some d →
      Resolves st d.id rest cid →
      Resolves st r (seg :: rest) cid

/-! ## Value of a digit string, and concrete inputs used by the claims -/

/-- Decimal value accumulated over a digit string (tool for stating what
`pyDigits` computes). -/
def valD : Nat → Chars → Nat
  | v, [] => v
  | v, c :: cs => valD (v * 10 + (c.toNat - 48)) cs

/-- Base filename used in the spec's examples. -/
def bData : Chars := "data.csv".data

/-- Base filename whose extension re-contains the version pattern
(exercises the replace-all parsing of the source). -/
def bAX : Chars := "a.xa_v".data

/-- A path segment name. -/
def sA : Chars := "A".data

/-- Another path segment name. -/
def sB : Chars := "B".data

/-- A payload. -/
def pA : Chars := "payload-a".data

/-- Another payload. -/
def pB : Chars := "payload-b".data

/-- A filename carried by duplicate artifacts. -/
def nX2 : Chars := "x.csv".data

/-- The versioned name `data_v1.csv`. -/
def nV1 : Chars := "data_v1.csv".data

/-- The empty store. -/
def stEmpty : Store := ⟨[], []⟩

/-- The spec's example container: versioned siblings `data_v1.csv`,
`data_v2.csv`, `data_v7.csv` and the unrelated `data_version_report.csv`. -/
def exStore : Store :=
  ⟨[], [⟨1, nV1, 0, false, []⟩,
        ⟨2, "data_v2.csv".data, 0, false, []⟩,
        ⟨3, "data_v7.csv".data, 0, false, []⟩,
        ⟨4, "data_version_report.csv".data, 0, false, []⟩]⟩

/-- A container holding the single sibling `data_v.csv1.csv`, whose
remainder after stripping the prefix and suffix does not parse, but whose
remainder after the source's replace-all does. -/
def stReplace : Store := ⟨[], [⟨1, "data_v.csv1.csv".data, 0, false, []⟩]⟩

/-- A container already holding `data_v1.csv` and `data_v2.csv`: the
starting state of the spec's concurrent-writer scenario. -/
def stC : Store := ⟨[], [⟨1, nV1, 0, false, []⟩, ⟨2, "data_v2.csv".data, 0, false, []⟩]⟩

/-- A store with the container chain `A/B` below the anchor 0. -/
def stW : Store := ⟨[⟨1, sA, 0, false⟩, ⟨2, sB, 1, false⟩], []⟩

/-- A container holding two distinct non-deleted artifacts that share the
name `x.csv`. -/
def stDup : Store :=
  ⟨[], [⟨1, nX2, 0, false, "one".data⟩, ⟨2, nX2, 0, false, "two".data⟩]⟩

/-! ## Lemmas: `replaceAll` (Python `str.replace(p, '')`) -/

theorem isPrefixOf_eq_true_iff (l₁ l₂ : Chars) : l₁.isPrefixOf l₂ = true ↔ l₁ <+: l₂ :=
  List.isPrefixOf_iff_prefix

theorem replaceAllAux_nil (fuel : Nat) (p : Chars) : replaceAllAux fuel p [] = [] := by
  cases fuel <;> rfl

theorem replaceAll_nil (p : Chars) : replaceAll p [] = [] := by
  unfold replaceAll
  split <;> simp [replaceAllAux_nil]

/-- The fuel of `replaceAllAux` is irrelevant once it is at least the
length of the string. -/
theorem replaceAllAux_fuel (p : Chars) (hp : p ≠ []) :
    ∀ (fuel₁ : Nat) (s : Chars) (fuel₂ : Nat), s.length ≤ fuel₁ → s.length ≤ fuel₂ →
      replaceAllAux fuel₁ p s = replaceAllAux fuel₂ p s := by
  intro fuel₁
  induction fuel₁ with
  | zero =>
    intro s fuel₂ h1 _
    have hs : s = [] := List.eq_nil_of_length_eq_zero (Nat.le_zero.mp h1)
    subst hs
    simp [replaceAllAux_nil]
  | succ n ih =>
    intro s fuel₂ h1 h2
    cases s with
    | nil => simp [replaceAllAux_nil]
    | cons c rest =>
      cases fuel₂ with
      | zero => simp at h2
      | succ m =>
        have hrest₁ : rest.length ≤ n := Nat.lt_succ_iff.mp h1
        have hrest₂ : rest.length ≤ m := Nat.lt_succ_iff.mp h2
        have hplen : 1 ≤ p.length := List.length_pos.mpr hp
        have hdrop₁ : ((c :: rest).drop p.length).length ≤ n := by
          rw [List.length_drop]
          simp only [List.length_cons]
          omega
        have hdrop₂ : ((c :: rest).drop p.length).length ≤ m := by
          rw [List.length_drop]
          simp only [List.length_cons]
          omega
        show replaceAllAux (n + 1) p (c :: rest) = replaceAllAux (m + 1) p (c :: rest)
        simp only [replaceAllAux]
        by_cases hpre : p.isPrefixOf (c :: rest) = true
        · rw [if_pos hpre, if_pos hpre]
          exact ih _ _ hdrop₁ hdrop₂
        · rw [if_neg hpre, if_neg hpre]
          exact congrArg (c :: ·) (ih _ _ hrest₁ hrest₂)

/-- One unfolding step of `replaceAll` on a nonempty string. -/
theorem replaceAll_cons_eq (p : Chars) (hp : p ≠ []) (c : Char) (s : Chars) :
    replaceAll p (c :: s) =
      if p.isPrefixOf (c :: s) then replaceAll p ((c :: s).drop p.length)
      else c :: replaceAll p s := by
  have hplen : 1 ≤ p.length := List.length_pos.mpr hp
  have hdrop : ((c :: s).drop p.length).length ≤ s.length := by
    rw [List.length_drop]
    simp only [List.length_cons]
    omega
  unfold replaceAll
  rw [if_neg hp, if_neg hp, if_neg hp]
  show replaceAllAux (s.length + 1) p (c :: s) = _
  simp only [replaceAllAux]
  by_cases hpre : p.isPrefixOf (c :: s) = true
  · rw [if_pos hpre, if_pos hpre]
    exact replaceAllAux_fuel p hp _ _ _ hdrop (Nat.le_refl _)
  · rw [if_neg hpre, if_neg hpre]

/-- Removing all occurrences of `p` from `p ++ s` first removes the front
copy of `p`. -/
theorem replaceAll_append_cancel (p s : Chars) (hp : p ≠ []) :
    replaceAll p (p ++ s) = replaceAll p s := by
  obtain ⟨d, p', hd⟩ := List.exists_cons_of_ne_nil hp
  subst hd
  rw [List.cons_append, replaceAll_cons_eq _ hp]
  rw [if_pos ((isPrefixOf_eq_true_iff _ _).mpr (by exact ⟨s, by simp⟩))]
  congr 1
  exact List.drop_left (d :: p') s

/-- When `p` is not a prefix of `c :: s`, removal keeps `c` and continues. -/
theorem replaceAll_cons_skip (p : Chars) (hp : p ≠ []) (c : Char) (s : Chars)
    (h : ¬ p <+: (c :: s)) : replaceAll p (c :: s) = c :: replaceAll p s := by
  rw [replaceAll_cons_eq p hp]
  rw [if_neg (by simpa [isPrefixOf_eq_true_iff] using h)]

/-- A string missing some character of `p` contains no occurrence of `p`,
so removal leaves it unchanged. -/
theorem replaceAll_eq_self (p s : Chars) (a : Char) (ha : a ∈ p) (hs : a ∉ s) :
    replaceAll p s = s := by
  have hp : p ≠ [] := List.ne_nil_of_mem ha
  induction s with
  | nil => exact replaceAll_nil p
  | cons c s' ih =>
    have hnp : ¬ p <+: (c :: s') := fun hpre => hs (hpre.subset ha)
    rw [replaceAll_cons_skip p hp c s' hnp]
    rw [ih (fun hm => hs (List.mem_cons_of_mem c hm))]

/-- Removal of a pattern whose first character does not occur in `a`
passes over `a` untouched. -/
theorem replaceAll_append_of_head_notMem (c0 : Char) (p' a s : Chars) (ha : c0 ∉ a) :
    replaceAll (c0 :: p') (a ++ s) = a ++ replaceAll (c0 :: p') s := by
  induction a with
  | nil => simp
  | cons c a' ih =>
    have hc : c0 ≠ c := fun h => ha (h ▸ List.mem_cons_self c a')
    have hnp : ¬ (c0 :: p') <+: (c :: (a' ++ s)) := by
      intro hpre
      exact hc (List.cons_prefix_cons.mp hpre).1
    rw [List.cons_append, replaceAll_cons_skip _ (by simp) _ _ hnp]
    rw [ih (fun hm => ha (List.mem_cons_of_mem c hm)), List.cons_append]

/-! ## Lemmas: decimal formatting and Python `int` parsing -/

theorem digitChar_isDigit : ∀ m, m < 10 → (Nat.digitChar m).isDigit = true := by decide

theorem digitChar_sub_48 : ∀ m, m < 10 → (Nat.digitChar m).toNat - 48 = m := by decide

theorem isDigit_ne_underscore {c : Char} (h : c.isDigit = true) : c ≠ '_' := by
  rintro rfl
  exact absurd h (by decide)

theorem isDigit_ne_dot {c : Char} (h : c.isDigit = true) : c ≠ '.' := by
  rintro rfl
  exact absurd h (by decide)

theorem isDigit_ne_minus {c : Char} (h : c.isDigit = true) : c ≠ '-' := by
  rintro rfl
  exact absurd h (by decide)

theorem isDigit_ne_plus {c : Char} (h : c.isDigit = true) : c ≠ '+' := by
  rintro rfl
  exact absurd h (by decide)

theorem isDigit_not_whitespace {c : Char} (h : c.isDigit = true) : c.isWhitespace = false := by
  rcases hw : c.isWhitespace with _ | _
  · rfl
  · exfalso
    have hw' := hw
    simp only [Char.isWhitespace, Bool.or_eq_true, decide_eq_true_eq] at hw'
    rcases hw' with ((h1 | h1) | h1) | h1 <;> (subst h1; exact absurd h (by decide))

theorem natToCharsAux_digits :
    ∀ (fuel n : Nat) (acc : Chars), (∀ c ∈ acc, c.isDigit = true) →
      ∀ c ∈ natToCharsAux fuel n acc, c.isDigit = true := by
  intro fuel
  induction fuel with
  | zero => intro n acc hacc c hc; exact hacc c hc
  | succ k ih =>
    intro n acc hacc c hc
    by_cases hn : n = 0
    · rw [natToCharsAux, if_pos hn] at hc
      exact hacc c hc
    · rw [natToCharsAux, if_neg hn] at hc
      refine ih (n / 10) _ ?_ c hc
      intro c' hc'
      rcases List.mem_cons.mp hc' with h1 | h1
      · exact h1 ▸ digitChar_isDigit _ (Nat.mod_lt n (by decide))
      · exact hacc c' h1

theorem natToCharsAux_append :
    ∀ (fuel n : Nat) (acc : Chars), natToCharsAux fuel n acc = natToCharsAux fuel n [] ++ acc := by
  intro fuel
  induction fuel with
  | zero => intro n acc; simp [natToCharsAux]
  | succ k ih =>
    intro n acc
    by_cases hn : n = 0
    · rw [natToCharsAux, if_pos hn, natToCharsAux, if_pos hn]
      simp
    · rw [natToCharsAux, if_neg hn, natToCharsAux, if_neg hn]
      rw [ih (n / 10) (Nat.digitChar (n % 10) :: acc), ih (n / 10) [Nat.digitChar (n % 10)]]
      simp

theorem valD_nil (v : Nat) : valD v [] = v := rfl

theorem valD_cons (v : Nat) (c : Char) (cs : Chars) :
    valD v (c :: cs) = valD (v * 10 + (c.toNat - 48)) cs := rfl

theorem valD_append (a b : Chars) : ∀ v, valD v (a ++ b) = valD (valD v a) b := by
  induction a with
  | nil => intro v; rw [List.nil_append, valD_nil]
  | cons c cs ih => intro v; rw [List.cons_append, valD_cons, valD_cons]; exact ih _

theorem natToCharsAux_valD :
    ∀ (fuel n : Nat), n ≤ fuel → valD 0 (natToCharsAux fuel n []) = n := by
  intro fuel
  induction fuel with
  | zero =>
    intro n h
    have : n = 0 := Nat.le_zero.mp h
    subst this
    rfl
  | succ k ih =>
    intro n h
    by_cases hn : n = 0
    · subst hn
      rw [natToCharsAux, if_pos rfl]
      rfl
    · rw [natToCharsAux, if_neg hn]
      rw [natToCharsAux_append, valD_append]
      have hdiv : n / 10 < n := Nat.div_lt_self (Nat.pos_of_ne_zero hn) (by decide)
      rw [ih (n / 10) (by omega)]
      show valD (n / 10 * 10 + ((Nat.digitChar (n % 10)).toNat - 48)) [] = n
      rw [digitChar_sub_48 _ (Nat.mod_lt n (by decide))]
      show n / 10 * 10 + n % 10 = n
      omega

theorem natToChars_digits (n : Nat) : ∀ c ∈ natToChars n, c.isDigit = true := by
  unfold natToChars
  split
  · intro c hc
    rcases List.mem_singleton.mp hc with rfl
    decide
  · exact natToCharsAux_digits n n [] (by simp)

theorem natToChars_valD (n : Nat) : valD 0 (natToChars n) = n := by
  unfold natToChars
  split
  · rename_i hn
    subst hn
    rfl
  · exact natToCharsAux_valD n n (Nat.le_refl n)

theorem natToChars_ne_nil (n : Nat) : natToChars n ≠ [] := by
  unfold natToChars
  split
  · simp
  · rename_i hn
    cases n with
    | zero => exact absurd rfl hn
    | succ m =>
      rw [natToCharsAux, if_neg hn, natToCharsAux_append]
      simp

theorem pyDigitsAux_eq_valD :
    ∀ (l : Chars), (∀ c ∈ l, c.isDigit = true) → ∀ v, pyDigitsAux v l = some (valD v l) := by
  intro l
  induction l with
  | nil => intro _ v; rfl
  | cons c cs ih =>
    intro h v
    have hc : c.isDigit = true := h c (List.mem_cons_self c cs)
    have htail : ∀ c' ∈ cs, c'.isDigit = true :=
      fun c' hc' => h c' (List.mem_cons_of_mem c hc')
    cases cs with
    | nil =>
      rw [pyDigitsAux, if_neg (isDigit_ne_underscore hc), if_pos hc]
      rfl
    | cons d rest =>
      rw [pyDigitsAux, if_neg (isDigit_ne_underscore hc), if_pos hc]
      rw [ih htail _]
      rfl

theorem pyDigits_eq_valD (l : Chars) (hne : l ≠ []) (h : ∀ c ∈ l, c.isDigit = true) :
    pyDigits l = some (valD 0 l) := by
  obtain ⟨c, cs, rfl⟩ := List.exists_cons_of_ne_nil hne
  have hc : c.isDigit = true := h c (List.mem_cons_self c cs)
  rw [pyDigits, if_pos hc]
  rw [pyDigitsAux_eq_valD cs (fun c' hc' => h c' (List.mem_cons_of_mem c hc')) _]
  show some (valD (c.toNat - 48) cs) = some (valD 0 (c :: cs))
  rw [valD_cons, Nat.zero_mul, Nat.zero_add]

theorem dropWhile_of_forall_false (p : Char → Bool) (l : Chars)
    (h : ∀ c ∈ l, p c = false) : l.dropWhile p = l := by
  cases l with
  | nil => rfl
  | cons c cs => simp [List.dropWhile_cons, h c (List.mem_cons_self c cs)]

theorem pyInt?_natToChars (n : Nat) : pyInt? (natToChars n) = some (n : Int) := by
  have hd := natToChars_digits n
  have hne := natToChars_ne_nil n
  have hnw : ∀ c ∈ natToChars n, c.isWhitespace = false :=
    fun c hc => isDigit_not_whitespace (hd c hc)
  obtain ⟨c, cs, hl⟩ := List.exists_cons_of_ne_nil hne
  have hc : c.isDigit = true := hd c (hl ▸ List.mem_cons_self c cs)
  rw [pyInt?]
  rw [dropWhile_of_forall_false _ _ hnw,
    dropWhile_of_forall_false _ _ (fun c' hc' => hnw c' (List.mem_reverse.mp hc')),
    List.reverse_reverse, hl]
  rw [pySigned, if_neg (isDigit_ne_minus hc), if_neg (isDigit_ne_plus hc)]
  rw [show c :: cs = natToChars n from hl.symm]
  rw [pyDigits_eq_valD _ hne hd, natToChars_valD n]
  rfl

/-! ## Lemmas: `splitBase` (Python `rsplit('.', 1)`) -/

theorem splitBase_of_not_mem (b : Chars) (h : '.' ∉ b) : splitBase b = (b, []) := by
  rw [splitBase, if_neg h]

theorem splitBase_spec (b : Chars) (h : '.' ∈ b) :
    b = (splitBase b).1 ++ '.' :: (splitBase b).2 ∧ '.' ∉ (splitBase b).2 := by
  rw [splitBase, if_pos h]
  have hmem : '.' ∈ b.reverse := List.mem_reverse.mpr h
  have hdw : b.reverse.dropWhile (fun c => decide (c ≠ '.')) ≠ [] := by
    intro hnil
    have h2 := List.dropWhile_eq_nil_iff.mp hnil '.' hmem
    simp at h2
  have hhead : (b.reverse.dropWhile (fun c => decide (c ≠ '.'))).head hdw = '.' := by
    have h3 := List.head_dropWhile_not (fun c => decide (c ≠ '.')) b.reverse hdw
    simpa using h3
  have hcons : '.' :: (b.reverse.dropWhile (fun c => decide (c ≠ '.'))).tail =
      b.reverse.dropWhile (fun c => decide (c ≠ '.')) := by
    have h4 := List.head_cons_tail _ hdw
    rw [hhead] at h4
    exact h4
  have hr : b.reverse.takeWhile (fun c => decide (c ≠ '.')) ++
      '.' :: (b.reverse.dropWhile (fun c => decide (c ≠ '.'))).tail = b.reverse := by
    rw [hcons]
    exact List.takeWhile_append_dropWhile _ _
  constructor
  · conv_lhs => rw [← List.reverse_reverse b, ← hr]
    rw [List.drop_one, List.reverse_append, List.reverse_cons, List.append_assoc]
    rfl
  · intro hx
    have hx2 := List.mem_takeWhile_imp (List.mem_reverse.mp hx)
    simp at hx2

/-! ## Lemmas: the `max_version` fold -/

theorem stepMax_le (nm ext : Chars) (acc : Int) (cand : Chars) :
    acc ≤ stepMax nm ext acc cand := by
  rw [stepMax]
  split
  · exact le_max_left _ _
  · exact le_refl _

theorem foldl_stepMax_mono (nm ext : Chars) :
    ∀ (l : List Chars) (acc : Int), acc ≤ l.foldl (stepMax nm ext) acc := by
  intro l
  induction l with
  | nil => intro acc; exact le_refl _
  | cons c cs ih =>
    intro acc
    rw [List.foldl_cons]
    exact le_trans (stepMax_le nm ext acc c) (ih _)

theorem maxVersion_nonneg (nm ext : Chars) (names : List Chars) :
    0 ≤ maxVersion nm ext names :=
  foldl_stepMax_mono nm ext names 0

theorem le_maxVersion_of_mem (nm ext : Chars) (names : List Chars) (cand : Chars) (v : Int)
    (hc : cand ∈ names) (hv : versionOf nm ext cand = some v) :
    v ≤ maxVersion nm ext names := by
  suffices hgen : ∀ (l : List Chars) (acc : Int), cand ∈ l → v ≤ l.foldl (stepMax nm ext) acc from
    hgen names 0 hc
  intro l
  induction l with
  | nil => intro acc hmem; exact absurd hmem (List.not_mem_nil cand)
  | cons c cs ih =>
    intro acc hmem
    rw [List.foldl_cons]
    rcases List.mem_cons.mp hmem with rfl | hmem'
    · refine le_trans ?_ (foldl_stepMax_mono nm ext cs _)
      rw [stepMax, hv]
      exact le_max_right _ _
    · exact ih _ hmem'

theorem foldl_stepMax_eq_filterMap (nm ext : Chars) :
    ∀ (l : List Chars) (acc : Int),
      l.foldl (stepMax nm ext) acc = (l.filterMap (versionOf nm ext)).foldl max acc := by
  intro l
  induction l with
  | nil => intro acc; rfl
  | cons c cs ih =>
    intro acc
    rw [List.foldl_cons, List.filterMap_cons]
    rcases hv : versionOf nm ext c with _ | v
    · rw [show stepMax nm ext acc c = acc by rw [stepMax, hv]]
      exact ih acc
    · rw [show stepMax nm ext acc c = max acc v by rw [stepMax, hv]]
      rw [List.foldl_cons]
      exact ih _

theorem maxVersion_eq_filterMap (nm ext : Chars) (names : List Chars) :
    maxVersion nm ext names = (names.filterMap (versionOf nm ext)).foldl max 0 :=
  foldl_stepMax_eq_filterMap nm ext names 0

theorem get_next_version_number_pos (st : Store) (folder : Nat) (base : Chars) :
    1 ≤ get_next_version_number st folder base := by
  have h := maxVersion_nonneg (splitBase base).1 (splitBase base).2
    ((listQuery st folder ((splitBase base).1 ++ ['_', 'v'])).map (fun f => f.name))
  show 1 ≤ get_next_version_core base _
  rw [get_next_version_core]
  omega

/-! ## Lemmas: round-trip of the constructed versioned name -/

theorem natToChars_not_mem_underscore (n : Nat) : '_' ∉ natToChars n := by
  intro h
  exact isDigit_ne_underscore (natToChars_digits n _ h) rfl

theorem natToChars_not_mem_dot (n : Nat) : '.' ∉ natToChars n := by
  intro h
  exact isDigit_ne_dot (natToChars_digits n _ h) rfl

/-- A name of the shape built at app.py lines 292-296 parses back to its
own version number under the scan of `get_next_version_number`, provided
the extension contains no underscore and the base filename does not end in
a bare dot; without these conditions the replace-all parsing can destroy
the number. -/
theorem versionOf_mkVersionedName (base : Chars) (n : Int)
    (hu : '_' ∉ (splitBase base).2)
    (hd : '.' ∈ base → (splitBase base).2 ≠ [])
    (hn : 0 ≤ n) :
    versionOf (splitBase base).1 (splitBase base).2 (mkVersionedName base n) = some n := by
  obtain ⟨m, rfl⟩ : ∃ m : Nat, n = (m : Int) := ⟨n.toNat, (Int.toNat_of_nonneg hn).symm⟩
  have hm : intToChars (m : Int) = natToChars m := rfl
  have hP : '_' ∈ (splitBase base).1 ++ ['_', 'v'] := List.mem_append_right _ (by simp)
  by_cases hdot : '.' ∈ base
  · have hext : (splitBase base).2 ≠ [] := hd hdot
    rw [versionOf, mkVersionedName, if_pos hdot, stripVersion, if_neg hext, hm]
    rw [List.append_assoc ((splitBase base).1 ++ ['_', 'v']) (natToChars m)
      ('.' :: (splitBase base).2)]
    rw [replaceAll_append_cancel _ _ (by simp)]
    rw [replaceAll_eq_self _ _ '_' hP ?notmem]
    case notmem =>
      intro hmem
      rcases List.mem_append.mp hmem with h1 | h1
      · exact natToChars_not_mem_underscore m h1
      · rcases List.mem_cons.mp h1 with h2 | h2
        · exact absurd h2 (by decide)
        · exact hu h2
    rw [replaceAll_append_of_head_notMem '.' _ _ _ (natToChars_not_mem_dot m)]
    rw [show replaceAll ('.' :: (splitBase base).2) ('.' :: (splitBase base).2) = [] by
      have h5 := replaceAll_append_cancel ('.' :: (splitBase base).2) [] (by simp)
      rw [List.append_nil] at h5
      rw [h5, replaceAll_nil]]
    rw [List.append_nil]
    exact pyInt?_natToChars m
  · have hsplit := splitBase_of_not_mem base hdot
    rw [versionOf, mkVersionedName, if_neg hdot, stripVersion, hm]
    simp only [hsplit]
    rw [if_pos trivial]
    rw [replaceAll_append_cancel _ _ (by simp)]
    rw [replaceAll_eq_self _ _ '_' (List.mem_append_right _ (by simp))
      (natToChars_not_mem_underscore m)]
    exact pyInt?_natToChars m

/-! ## Lemmas: `find?` over a store listing -/

theorem find?_eq_none_of_forall_false {α : Type} (p : α → Bool) (l : List α)
    (h : ∀ a ∈ l, p a = false) : l.find? p = none := by
  induction l with
  | nil => rfl
  | cons a t ih =>
    rw [List.find?_cons_of_neg _ (by simp [h a (List.mem_cons_self a t)])]
    exact ih (fun a' ha' => h a' (List.mem_cons_of_mem a ha'))

/-! ## Lemmas: path resolution -/

theorem resolveTrace_fst (st : Store) :
    ∀ (path : List Chars) (root : Nat),
      (resolveTrace st root path).1 = find_folder_by_path st root path := by
  intro path
  induction path with
  | nil => intro root; rfl
  | cons seg rest ih =>
    intro root
    rw [resolveTrace, find_folder_by_path]
    rcases hh : (folderQuery st root seg).head? with _ | d
    · rfl
    · exact ih d.id

theorem find_folder_by_path_eq_R (st : Store) :
    ∀ (path : List Chars) (root : Nat),
      find_folder_by_path st root path =
        find_folder_by_pathR (fun r s => .ok (folderQuery st r s)) root path := by
  intro path
  induction path with
  | nil => intro root; rfl
  | cons seg rest ih =>
    intro root
    rw [find_folder_by_path, find_folder_by_pathR]
    rcases hh : (folderQuery st root seg).head? with _ | d
    · simp only [hh]
    · simp only [hh]
      exact ih d.id

theorem resolveTrace_of_resolves (st : Store) :
    ∀ (path : List Chars) (root cid : Nat), Resolves st root path cid →
      (resolveTrace st root path).1 = some cid ∧
      (resolveTrace st root path).2.map Prod.snd = path := by
  intro path
  induction path with
  | nil =>
    intro root cid hres
    cases hres
    exact ⟨rfl, rfl⟩
  | cons seg rest ih =>
    intro root cid hres
    cases hres with
    | cons _ _ _ d _ hh hrest =>
      rw [resolveTrace]
      rw [hh]
      obtain ⟨h1, h2⟩ := ih d.id cid hrest
      refine ⟨h1, ?_⟩
      simp only [List.map_cons, h2]

theorem resolveTrace_failure (st : Store) :
    ∀ (path : List Chars) (root : Nat), (resolveTrace st root path).1 = none →
      ∃ k, ∃ hk : k < path.length, ∃ pid,
        (resolveTrace st root path).2.map Prod.snd = path.take (k + 1) ∧
        (resolveTrace st root path).2[k]? = some (pid, path.get ⟨k, hk⟩) ∧
        folderQuery st pid (path.get ⟨k, hk⟩) = [] := by
  intro path
  induction path with
  | nil =>
    intro root h
    rw [resolveTrace] at h
    exact absurd h (by simp)
  | cons seg rest ih =>
    intro root h
    rcases hh : (folderQuery st root seg).head? with _ | d
    · refine ⟨0, by simp, root, ?_, ?_, ?_⟩
      · rw [resolveTrace, hh]
        simp
      · rw [resolveTrace, hh]
        simp
      · exact List.head?_eq_none_iff.mp hh
    · have h' : (resolveTrace st d.id rest).1 = none := by
        rw [resolveTrace, hh] at h
        exact h
      obtain ⟨k, hk, pid, ht, hg, hq⟩ := ih d.id h'
      refine ⟨k + 1, Nat.succ_lt_succ hk, pid, ?_, ?_, ?_⟩
      · rw [resolveTrace, hh]
        simp only [List.map_cons, ht, List.take_succ_cons]
      · rw [resolveTrace, hh]
        simpa using hg
      · simpa using hq

/-! ## Pattern membership of the constructed name -/

theorem pattern_infix_mkVersionedName (base : Chars) (n : Int) :
    ((splitBase base).1 ++ ['_', 'v']) <:+: mkVersionedName base n := by
  rw [mkVersionedName]
  by_cases hdot : '.' ∈ base
  · rw [if_pos hdot, List.append_assoc ((splitBase base).1 ++ ['_', 'v'])]
    exact List.IsPrefix.isInfix (List.prefix_append _ _)
  · rw [if_neg hdot]
    simp only [splitBase_of_not_mem base hdot]
    exact List.IsPrefix.isInfix (List.prefix_append _ _)

/-! ## The claims -/

/-- C1: CODE BUG.  The claim describes guarantees about pairs of
successful writes (distinct final names; a race resolved at v3 and v4+).
In the source no write can ever succeed: the create step raises
`TypeError` at the `MediaFileUpload(io.BytesIO(...))` construction (app.py
line 309) before any store request, and the `except` returns `None`.
Evaluating the code on the spec's race scenario (container holding
`data_v1.csv` and `data_v2.csv`): both writers' scans compute version 3,
both invocations then fail, nothing is created and no final names exist —
the claimed outcome is unreachable.  Since the create step never contacts
the store, every interleaving of the two writers coincides with this
composition. -/
theorem c1_no_writer_ever_succeeds :
    get_next_version_number stC 0 bData = 3 ∧
    (upload_versioned_csv stC 0 bData pA).2 = none ∧
    (upload_versioned_csv (upload_versioned_csv stC 0 bData pA).1 0 bData pB).2 = none ∧
    (upload_versioned_csv (upload_versioned_csv stC 0 bData pA).1 0 bData pB).1 = stC := by
  decide

/-- C2: CODE BUG.  The claim requires a create that fails because the
name already exists to be retried at an incremented version up to a bound
and then surfaced as `VersionConflict`.  In the source the create step
never reaches the store at all: `MediaFileUpload` is handed an
`io.BytesIO` and raises `TypeError` first (app.py line 309), the single
`except` (lines 322-324) catches every failure uniformly and returns
`None`, and no name-collision branch, retry counter, or `VersionConflict`
error exists anywhere in app.py.  Evaluating the code: the write returns
`None` and the store — the original and all prior versions — is
untouched, which is the only clause of the claim the code meets. -/
theorem c2_no_collision_branch_exists :
    upload_versioned_csv stC 0 bData pB = (stC, none) := by
  decide

/-- C3 counterexample: the claim describes parsing as stripping the
`stem_v` prefix and the `.ext` suffix; the source instead removes EVERY
occurrence of the two patterns (`str.replace`).  On the sibling
`data_v.csv1.csv` the claim's parse fails (remainder `.csv1`), so the
claimed allocator returns 1, but the source's replace-all leaves `1` and
returns 2. -/
theorem c3_counterexample :
    get_next_version_number stReplace 0 bData = 2 ∧
    claimNextVersion bData
      ((listQuery stReplace 0 ((splitBase bData).1 ++ ['_', 'v'])).map (fun f => f.name)) = 1 := by
  decide

/-- C3 (amended): for every container and base filename the allocator
returns `max (parsed values) + 1` where a sibling's version is parsed by
removing every occurrence of `stem_v` and then every occurrence of `.ext`
(the source's replace-all semantics, not prefix/suffix stripping) and
applying Python `int`; names that fail to parse are silently skipped, an
empty parse set gives 1, and the spec's concrete example (`data_v1.csv`,
`data_v2.csv`, `data_v7.csv`, `data_version_report.csv`) yields 8. -/
theorem c3_next_version_characterization :
    (∀ (st : Store) (folder : Nat) (base : Chars),
      get_next_version_number st folder base =
        (((listQuery st folder ((splitBase base).1 ++ ['_', 'v'])).map (fun f => f.name)).filterMap
          (versionOf (splitBase base).1 (splitBase base).2)).foldl max 0 + 1) ∧
    get_next_version_number exStore 0 bData = 8 := by
  constructor
  · intro st folder base
    show get_next_version_core base _ = _
    rw [get_next_version_core, maxVersion_eq_filterMap]
  · decide

/-- C4: CODE BUG.  The claim quantifies over two sequential SUCCESSFUL
invocations of the versioned-write operation; in the source no invocation
can succeed — every call to `upload_versioned_csv` raises `TypeError` at
the `MediaFileUpload(io.BytesIO(...))` construction (app.py line 309) and
returns `None` — so there are no version numbers to compare.  Evaluating
the code: both sequential calls fail, create nothing, and the allocator's
value does not advance between them. -/
theorem c4_no_successful_sequential_writes :
    (upload_versioned_csv stEmpty 0 bData pA).2 = none ∧
    (upload_versioned_csv (upload_versioned_csv stEmpty 0 bData pA).1 0 bData pB).2 = none ∧
    get_next_version_number (upload_versioned_csv stEmpty 0 bData pA).1 0 bData =
      get_next_version_number stEmpty 0 bData := by
  decide

/-- C5: CODE BUG.  The claim describes the state after a successful
invocation: original artifact untouched, exactly one new artifact with the
versioned name, nothing opened for writing, no error path mutating any
artifact.  The source has no successful invocation: every call raises
`TypeError` at the `MediaFileUpload(io.BytesIO(...))` construction (app.py
line 309) and the `except` returns `None`.  Evaluating the code: for
EVERY store state, folder, base filename and payload, the operation
returns the store completely unchanged and the failure result — no
artifact is ever mutated, deleted, opened for writing, or created. -/
theorem c5_store_never_changed (st : Store) (folder : Nat) (base payload : Chars) :
    (upload_versioned_csv st folder base payload).1 = st ∧
    (upload_versioned_csv st folder base payload).2 = none :=
  ⟨rfl, rfl⟩

/-- C6: path resolution (with its store lookups made explicit) agrees with
the source's resolver; when every segment matches a chain of containers it
returns the final container id after querying exactly the path's segments;
and when it fails it fails at the first segment `k` with zero matches,
having issued lookups only for segments 0..k and none beyond. -/
theorem c6_path_resolution (st : Store) (root : Nat) (path : List Chars) :
    ((resolveTrace st root path).1 = find_folder_by_path st root path) ∧
    (∀ cid, Resolves st root path cid →
      (resolveTrace st root path).1 = some cid ∧
      (resolveTrace st root path).2.map Prod.snd = path) ∧
    ((resolveTrace st root path).1 = none →
      ∃ k, ∃ hk : k < path.length, ∃ pid,
        (resolveTrace st root path).2.map Prod.snd = path.take (k + 1) ∧
        (resolveTrace st root path).2[k]? = some (pid, path.get ⟨k, hk⟩) ∧
        folderQuery st pid (path.get ⟨k, hk⟩) = []) :=
  ⟨resolveTrace_fst st path root,
    fun cid h => resolveTrace_of_resolves st path root cid h,
    fun h => resolveTrace_failure st path root h⟩

/-- C6 witness: the chain `A/B` below anchor 0 resolves to container 2,
with one lookup per segment. -/
theorem c6_path_resolution_witness :
    (resolveTrace stW 0 [sA, sB]).1 = some 2 ∧
    (resolveTrace stW 0 [sA, sB]).2.map Prod.snd = [sA, sB] :=
  (c6_path_resolution stW 0 [sA, sB]).2.1 2
    (Resolves.cons 0 sA [sB] ⟨1, sA, 0, false⟩ 2 (by decide)
      (Resolves.cons 1 sB [] ⟨2, sB, 1, false⟩ 2 (by decide) (Resolves.nil 2)))

/-- C7: CODE BUG.  The claim reads back the bytes of an artifact freshly
created by the versioned-write operation; the source never creates one —
the create step raises `TypeError` at `MediaFileUpload` (app.py line 309)
before any bytes reach the store — so the round-trip can never be
exercised.  Evaluating the code: the write returns `None`, and after the
attempt no artifact exists under any id that was not already in the
store. -/
theorem c7_no_artifact_to_download (st : Store) (folder : Nat) (base payload : Chars)
    (fid : Nat) (hfid : ∀ g ∈ st.files, g.id ≠ fid) :
    (upload_versioned_csv st folder base payload).2 = none ∧
    download_bytes (upload_versioned_csv st folder base payload).1 fid = none := by
  refine ⟨rfl, ?_⟩
  rw [download_bytes]
  rw [show (upload_versioned_csv st folder base payload).1 = st from rfl]
  rw [find?_eq_none_of_forall_false _ _
    (fun g hg => by rw [beq_eq_false_iff_ne]; exact hfid g hg)]
  rfl

/-- C7 witness: after a concrete write attempt on the example container,
the fresh id 99 still maps to no artifact. -/
theorem c7_no_artifact_to_download_witness :
    (upload_versioned_csv stC 0 bData pA).2 = none ∧
    download_bytes (upload_versioned_csv stC 0 bData pA).1 99 = none :=
  c7_no_artifact_to_download stC 0 bData pA 99 (by decide)

/-- C8: the versioned name is built by splitting the base filename on its
LAST dot (the extension part contains no dot and reassembles to the base)
into `stem_v n . ext`; with no dot in the base filename the extension is
empty and the name is `base_v n` with no trailing separator. -/
theorem c8_versioned_name_shape (base : Chars) (n : Int) :
    ('.' ∈ base →
      base = (splitBase base).1 ++ '.' :: (splitBase base).2 ∧
      '.' ∉ (splitBase base).2 ∧
      mkVersionedName base n =
        (splitBase base).1 ++ ['_', 'v'] ++ intToChars n ++ '.' :: (splitBase base).2) ∧
    ('.' ∉ base →
      splitBase base = (base, []) ∧
      mkVersionedName base n = base ++ ['_', 'v'] ++ intToChars n) := by
  constructor
  · intro h
    obtain ⟨h1, h2⟩ := splitBase_spec base h
    exact ⟨h1, h2, by rw [mkVersionedName, if_pos h]⟩
  · intro h
    exact ⟨splitBase_of_not_mem base h, by rw [mkVersionedName, if_neg h]⟩

/-- C8 witness: the shape at the concrete base filename `data.csv`. -/
theorem c8_versioned_name_shape_witness :
    bData = (splitBase bData).1 ++ '.' :: (splitBase bData).2 ∧
    '.' ∉ (splitBase bData).2 ∧
    mkVersionedName bData 3 =
      (splitBase bData).1 ++ ['_', 'v'] ++ intToChars 3 ++ '.' :: (splitBase bData).2 :=
  (c8_versioned_name_shape bData 3).1 (by decide)

/-- C9 counterexample: a transport error is NOT propagated as a
distinguishable store-unavailable error: path resolution and artifact
location return exactly the not-found result `none` that an empty listing
produces, and version allocation returns exactly the default 1 that an
empty folder produces — the caller cannot tell the failure apart from a
normal result. -/
theorem c9_counterexample :
    find_folder_by_pathR (fun _ _ => .error ()) 0 [sA] = none ∧
    find_folder_by_pathR (fun _ _ => .ok []) 0 [sA] = none ∧
    get_next_version_numberE (.error ()) bData = 1 ∧
    get_next_version_numberE (.ok []) bData = 1 ∧
    find_file_in_folderR (Except.error () : Except Unit (List DFile)) = none ∧
    find_file_in_folderR (Except.ok ([] : List DFile)) = none :=
  ⟨rfl, rfl, rfl, rfl, rfl, rfl⟩

/-- C9 (amended): every store transport failure during path resolution,
artifact location or version allocation is caught by the surrounding
handler and converted into the corresponding normal result — `none`
(not found) for resolution and location, and the default version number 1
for allocation — rather than being propagated as a distinguishable
store-unavailable error. -/
theorem c9_error_to_default (resp : Nat → Chars → Except Unit (List DFolder)) (root : Nat)
    (seg : Chars) (rest : List Chars) (base : Chars) (e e' : Unit)
    (h : resp root seg = .error e') :
    find_folder_by_pathR resp root (seg :: rest) = none ∧
    get_next_version_numberE (.error e) base = 1 ∧
    find_file_in_folderR (Except.error e : Except Unit (List DFile)) = none := by
  refine ⟨?_, rfl, rfl⟩
  rw [find_folder_by_pathR, h]

/-- C9 witness: a concrete failing first lookup. -/
theorem c9_error_to_default_witness :
    find_folder_by_pathR (fun _ _ => .error ()) 5 (sB :: [sA]) = none ∧
    get_next_version_numberE (.error ()) bAX = 1 ∧
    find_file_in_folderR (Except.error () : Except Unit (List DFile)) = none :=
  c9_error_to_default (fun _ _ => .error ()) 5 sB [sA] bAX () () rfl

/-- C10: when at least two non-deleted artifacts with the requested name
exist in the container, the locator neither fails nor reports ambiguity:
it returns `some` of the FIRST entry of the list the store produced, so
the result on duplicates is fixed entirely by the store's listing order. -/
theorem c10_first_of_duplicates (st : Store) (folder : Nat) (nm : Chars)
    (h : 2 ≤ (fileQuery st folder nm).length) :
    ∃ f rest, fileQuery st folder nm = f :: rest ∧ rest ≠ [] ∧
      find_file_in_folder st folder nm = some f := by
  rcases hq : fileQuery st folder nm with _ | ⟨f, rest⟩
  · rw [hq] at h
    simp at h
  · refine ⟨f, rest, rfl, ?_, ?_⟩
    · intro hrest
      rw [hq, hrest] at h
      simp at h
    · rw [find_file_in_folder, hq]
      rfl

/-- C10 witness: two duplicates of `x.csv`; the first listed one is
returned. -/
theorem c10_first_of_duplicates_witness :
    ∃ f rest, fileQuery stDup 0 nX2 = f :: rest ∧ rest ≠ [] ∧
      find_file_in_folder stDup 0 nX2 = some f :=
  c10_first_of_duplicates stDup 0 nX2 (by decide)

end GgirQC
